import Mathlib

/-!
Verification of the genji query-core specification against the inspected
source: the hash-set filter used by the distinct set operator
(documentHashSet in the planner, found in the inspected sources) and the
CLI command wiring (cmd/genji/main.go).

Pure Go helpers that the inspected source calls but whose bodies are not
part of the inspected sources (document.Fields, Document.GetByField, the
canonical value encoder, the SQL query pipeline of the Example) are
modelled from the specification; each such definition carries a doc
comment starting with "Modelled from the spec:".
-/

namespace Genji

/-- Lexicographic comparison of two character lists, used to model the
canonical (sorted) field order of the spec. -/
def charListLe : List Char → List Char → Bool
  | [], _ => true
  | _ :: _, [] => false
  | a :: as, b :: bs =>
    if a < b then true
    else if b < a then false
    else charListLe as bs

/-- Lexicographic order on strings via their character lists. -/
def strLe (a b : String) : Bool := charListLe a.data b.data

/-- Model of Go strings.HasSuffix, used by the restore command. -/
def strHasSuffix (s suffixStr : String) : Bool := suffixStr.data.isSuffixOf s.data

/-- Modelled from the spec: the Value tagged union of the document value
model (section 3). The float, array and nested-document tags are omitted:
no claim under verification mentions them, and the inspected source
manipulates values only through the opaque canonical encoder. -/
inductive Value where
  | null
  | boolean (b : Bool)
  | integer (i : Int)
  | text (s : String)
  | blob (bytes : List Nat)
  deriving DecidableEq

/-- Modelled from the spec: sign-and-magnitude integer encoding; only
determinism matters for the claims under verification. -/
def encodeInt (i : Int) : List Nat :=
  if 0 ≤ i then [1, i.toNat] else [0, (-i).toNat]

/-- Modelled from the spec: the canonical deterministic byte encoding of a
Value (section 4.1); a tag byte followed by a length-prefixed payload. -/
def encodeValue : Value → List Nat
  | .null => [0]
  | .boolean b => [1, cond b 1 0]
  | .integer i => 2 :: encodeInt i
  | .text s => 3 :: s.length :: s.data.map Char.toNat
  | .blob bytes => 4 :: bytes.length :: bytes

/-- The document.Document interface as consumed by the inspected source:
field enumeration (document.Fields, built on Iterate) and field lookup
(GetByField), both fallible. -/
structure Document where
  fieldsResult : Except String (List String)
  getByField : String → Except String Value

/-- Modelled from the spec: the canonical (sorted) field order used for
hashing and encoding (section 3, Document invariant). -/
def sortFields (names : List String) : List String :=
  List.insertionSort (fun a b => strLe a b = true) names

/-- Modelled from the spec: the document built from an insertion-ordered
field list; document.Fields returns the field names in canonical sorted
order and GetByField looks a field up by name, failing when absent. -/
def mkDocument (l : List (String × Value)) : Document where
  fieldsResult := .ok (sortFields (l.map Prod.fst))
  getByField f :=
    match l.lookup f with
    | some v => .ok v
    | none => .error "field not found"

/-- Modelled from the spec: the package-default 64-bit hash (maphash)
substituted when the caller passes no hashing implementation; an FNV-style
fold reduced modulo 2 to the 64. Only that it is a total function on byte
sequences matters for the claims under verification. -/
def maphashSum64 (bytes : List Nat) : Nat :=
  bytes.foldl (fun acc b => (acc * 1099511628211 + b) % 2 ^ 64) 14695981039346656037

/-- A constant hash function, used to exhibit hash collisions. -/
def constZeroSum : List Nat → Nat := fun _ => 0

/-- The documentHashSet of the planner: a hash.Hash64 (split into the
algorithm sum64 and the accumulator hashState, the bytes written since the
last Reset) together with the set of recorded 64-bit keys. -/
structure documentHashSet where
  sum64 : List Nat → Nat
  hashState : List Nat
  set : List Nat

/-- newDocumentHashSet: when the caller passes no hash (none), the
package-default maphash is substituted; the key set starts empty. -/
def newDocumentHashSet (h : Option (List Nat → Nat)) : documentHashSet :=
  { sum64 := h.getD maphashSum64, hashState := [], set := [] }

/-- The loop body of generateKey: for each field, GetByField then
enc.Encode, which writes the encoded value bytes into the hash
accumulator; the first error aborts. -/
def writeFields (d : Document) (st : List Nat) : List String → Except String (List Nat)
  | [] => .ok st
  | f :: fs =>
    match d.getByField f with
    | .error e => .error e
    | .ok v => writeFields d (st ++ encodeValue v) fs

/-- generateKey: enumerate the fields, encode each field value into the
hash accumulator, and return Sum64 of the accumulated bytes; on error
return 0 with the error. The deferred hash.Reset makes the accumulator
empty on every exit path, which the second component records. -/
def generateKey (s : documentHashSet) (d : Document) : (Nat × Option String) × List Nat :=
  match d.fieldsResult with
  | .error e => ((0, some e), [])
  | .ok fields =>
    match writeFields d s.hashState fields with
    | .error e => ((0, some e), [])
    | .ok written => ((s.sum64 written, none), [])

/-- Filter: compute the key; on error return (false, error); if the key is
already recorded return false; otherwise record it and return true. -/
def Filter (s : documentHashSet) (d : Document) : (Bool × Option String) × documentHashSet :=
  match generateKey s d with
  | ((_, some e), hs) => ((false, some e), { s with hashState := hs })
  | ((k, none), hs) =>
    if k ∈ s.set then ((false, none), { s with hashState := hs })
    else ((true, none), { s with hashState := hs, set := s.set ++ [k] })

/-- Drives Filter over a stream of documents, collecting the survivors in
order; the first error halts the stream (section 7 propagation policy). -/
def filterStream (s : documentHashSet) : List Document → List Document × documentHashSet
  | [] => ([], s)
  | d :: ds =>
    match Filter s d with
    | ((_, some _), s') => ([], s')
    | ((true, none), s') =>
      let r := filterStream s' ds
      (d :: r.1, r.2)
    | ((false, none), s') => filterStream s' ds

/-- The surrogate key of a single document computed on a fresh (reset)
accumulator. -/
def keyOf (sum64 : List Nat → Nat) (d : Document) : Nat × Option String :=
  (generateKey { sum64 := sum64, hashState := [], set := [] } d).1

/-- Follows the words of the spec, for comparison with filterStream: the
distinct operator passes exactly the documents whose key has not been
produced by an earlier document, in first-seen input order. -/
def distinctSpec (sum64 : List Nat → Nat) (seen : List Nat) : List Document → List Document
  | [] => []
  | d :: ds =>
    match keyOf sum64 d with
    | (_, some _) => []
    | (k, none) =>
      if k ∈ seen then distinctSpec sum64 seen ds
      else d :: distinctSpec sum64 (k :: seen) ds

/-- Concatenation of the encodings of the values of the given fields,
looked up in the field list l. -/
def encodeFieldsOf (l : List (String × Value)) : List String → List Nat
  | [] => []
  | f :: fs =>
    (match l.lookup f with
     | some v => encodeValue v
     | none => []) ++ encodeFieldsOf l fs

/-- The byte sequence fed to the hash for a document built from l: the
encodings of the field values taken in canonical sorted field order; the
field names themselves contribute no bytes. -/
def sortedValuesEncoding (l : List (String × Value)) : List Nat :=
  encodeFieldsOf l (sortFields (l.map Prod.fst))

/-- Modelled from the spec: the user table of the Scan+Filter+Projection
scenario, rows held in primary-key order (section 8). -/
def userTable : List (List (String × Value)) :=
  [[("ID", Value.integer 1), ("Name", Value.text "bar"), ("Age", Value.integer 100)],
   [("ID", Value.integer 2), ("Name", Value.text "baz"), ("Age", Value.integer 0)],
   [("ID", Value.integer 10), ("Name", Value.text "foo"), ("Age", Value.integer 15)]]

/-- Modelled from the spec: a table scan emits the stored rows in
primary-key order (section 4.4, Scan). -/
def scanRows (table : List (List (String × Value))) : List (List (String × Value)) := table

/-- Modelled from the spec: the Filter operator forwards only rows whose
predicate evaluates to a true Boolean; a predicate error halts the
stream (section 4.4, Filter; section 7). -/
def filterRows (pred : List (String × Value) → Except String Bool) :
    List (List (String × Value)) → Except String (List (List (String × Value)))
  | [] => .ok []
  | r :: rs =>
    match pred r with
    | .error e => .error e
    | .ok true =>
      match filterRows pred rs with
      | .error e => .error e
      | .ok l => .ok (r :: l)
    | .ok false => filterRows pred rs

/-- Modelled from the spec: the predicate Name = "bar"; a missing field
evaluates to a non-true result and the row is excluded, not erred
(section 4.4, Filter). -/
def nameIsBar (r : List (String × Value)) : Except String Bool :=
  match r.lookup "Name" with
  | some v => .ok (decide (v = Value.text "bar"))
  | none => .ok false

/-- Modelled from the spec: the all-fields projection of SELECT star. -/
def projectAll (r : List (String × Value)) : List (String × Value) := r

/-- Modelled from the spec: the pipeline of the Example scenario: scan the
user table, filter on Name = "bar", project all fields. -/
def exampleQuery : Except String (List (List (String × Value))) :=
  match filterRows nameIsBar (scanRows userTable) with
  | .error e => .error e
  | .ok rows => .ok (rows.map projectAll)

/-- Outcome of the CLI root command: an exit error with a message and an
exit code, or running the shell with a chosen engine and database path. -/
inductive RootOutcome where
  | exitErr (msg : String) (code : Nat)
  | run (engine : String) (dbpath : String)
  deriving DecidableEq

/-- The root command action of cmd/genji/main.go: validates the bolt and
badger flags against the positional database path and selects the storage
engine. -/
def rootAction (useBolt useBadger : Bool) (dbpath : String) : RootOutcome :=
  if useBolt && useBadger then
    .exitErr "cannot use bolt and badger options at the same time" 2
  else if (useBolt || useBadger) && (dbpath == "") then
    .exitErr "db path required when using bolt or badger" 2
  else
    let engine := "memory"
    let engine := if useBolt || dbpath != "" then "bolt" else engine
    let engine := if useBadger then "badger" else engine
    .run engine dbpath

/-- Outcome of the argument checks of the restore command, up to the point
where the dump file would be opened. -/
inductive RestoreOutcome where
  | errEngine
  | errBadArgs
  | errNotSql
  | errNotDb
  | proceed (dumpFile dbPath : String)
  deriving DecidableEq

/-- The restore command action of cmd/genji/main.go: engine must be bolt
or badger, exactly two positional arguments, the first ending in .sql and
the second in .db, checked in that order before any file is opened. -/
def restoreAction (engine : String) (args : List String) : RestoreOutcome :=
  if !(engine == "bolt" || engine == "badger") then .errEngine
  else if args.length != 2 then .errBadArgs
  else if !(strHasSuffix (args.getD 0 "") ".sql") then .errNotSql
  else if !(strHasSuffix (args.getD 1 "") ".db") then .errNotDb
  else .proceed (args.getD 0 "") (args.getD 1 "")

/-- A small concrete document used in witnesses. -/
def wdocA : Document := mkDocument [("a", Value.integer 1)]

/-- A second concrete document, with a different key than wdocA. -/
def wdocB : Document := mkDocument [("b", Value.text "x")]

/-- A document whose field enumeration fails, exercising the error path. -/
def errDoc : Document := ⟨.error "boom", fun _ => .error "boom"⟩

/-! Helper lemmas on the lexicographic field order. -/

theorem charListLe_antisymm :
    ∀ as bs, charListLe as bs = true → charListLe bs as = true → as = bs
  | [], [], _, _ => rfl
  | [], _ :: _, _, h => by simp [charListLe] at h
  | _ :: _, [], h, _ => by simp [charListLe] at h
  | a :: as, b :: bs, h₁, h₂ => by
    simp only [charListLe] at h₁ h₂
    rcases lt_trichotomy a b with hlt | heq | hgt
    · rw [if_neg (lt_asymm hlt), if_pos hlt] at h₂; exact absurd h₂ (by simp)
    · subst heq
      rw [if_neg (lt_irrefl a), if_neg (lt_irrefl a)] at h₁ h₂
      rw [charListLe_antisymm as bs h₁ h₂]
    · rw [if_neg (lt_asymm hgt), if_pos hgt] at h₁; exact absurd h₁ (by simp)

theorem charListLe_total :
    ∀ as bs, charListLe as bs = true ∨ charListLe bs as = true
  | [], _ => Or.inl rfl
  | _ :: _, [] => Or.inr rfl
  | a :: as, b :: bs => by
    simp only [charListLe]
    rcases lt_trichotomy a b with hlt | heq | hgt
    · left; rw [if_pos hlt]
    · subst heq
      simp only [if_neg (lt_irrefl a)]
      exact charListLe_total as bs
    · right; rw [if_pos hgt]

theorem charListLe_trans :
    ∀ as bs cs, charListLe as bs = true → charListLe bs cs = true →
      charListLe as cs = true
  | [], _, _, _, _ => rfl
  | _ :: _, [], _, h, _ => by simp [charListLe] at h
  | _ :: _, _ :: _, [], _, h => by simp [charListLe] at h
  | a :: as, b :: bs, c :: cs, h₁, h₂ => by
    simp only [charListLe] at h₁ h₂ ⊢
    rcases lt_trichotomy a b with hab | hab | hab
    · rcases lt_trichotomy b c with hbc | hbc | hbc
      · rw [if_pos (lt_trans hab hbc)]
      · subst hbc; rw [if_pos hab]
      · rw [if_neg (lt_asymm hbc), if_pos hbc] at h₂; exact absurd h₂ (by simp)
    · subst hab
      rcases lt_trichotomy a c with hac | hac | hac
      · rw [if_pos hac]
      · subst hac
        rw [if_neg (lt_irrefl a), if_neg (lt_irrefl a)] at h₁ h₂
        rw [if_neg (lt_irrefl a), if_neg (lt_irrefl a)]
        exact charListLe_trans _ _ _ h₁ h₂
      · rw [if_neg (lt_asymm hac), if_pos hac] at h₂; exact absurd h₂ (by simp)
    · rw [if_neg (lt_asymm hab), if_pos hab] at h₁; exact absurd h₁ (by simp)

theorem sortFields_eq_of_perm {l₁ l₂ : List String} (h : l₁.Perm l₂) :
    sortFields l₁ = sortFields l₂ := by
  haveI : IsAntisymm String (fun a b => strLe a b = true) :=
    ⟨fun a b hab hba => String.ext (charListLe_antisymm _ _ hab hba)⟩
  exact List.eq_of_perm_of_sorted
    (((List.perm_insertionSort _ _).trans h).trans (List.perm_insertionSort _ _).symm)
    (by
      haveI : IsTotal String (fun a b => strLe a b = true) :=
        ⟨fun a b => charListLe_total a.data b.data⟩
      haveI : IsTrans String (fun a b => strLe a b = true) :=
        ⟨fun _ _ _ => charListLe_trans _ _ _⟩
      exact List.sorted_insertionSort _ _)
    (by
      haveI : IsTotal String (fun a b => strLe a b = true) :=
        ⟨fun a b => charListLe_total a.data b.data⟩
      haveI : IsTrans String (fun a b => strLe a b = true) :=
        ⟨fun _ _ _ => charListLe_trans _ _ _⟩
      exact List.sorted_insertionSort _ _)

/-! Helper lemmas on association-list lookup. -/

theorem lookup_some_of_mem_fst {l : List (String × Value)} {f : String}
    (h : f ∈ l.map Prod.fst) : ∃ v, l.lookup f = some v := by
  induction l with
  | nil => simp at h
  | cons p t ih =>
    rcases p with ⟨k, v⟩
    by_cases hk : f = k
    · subst hk
      exact ⟨v, by simp [List.lookup]⟩
    · have hmem : f ∈ t.map Prod.fst := by
        simpa [hk] using h
      obtain ⟨w, hw⟩ := ih hmem
      refine ⟨w, ?_⟩
      simp only [List.lookup, beq_eq_false_iff_ne.mpr hk]
      exact hw

theorem lookup_eq_of_perm {l₁ l₂ : List (String × Value)} (h : l₁.Perm l₂)
    (hn : (l₁.map Prod.fst).Nodup) : ∀ f, l₁.lookup f = l₂.lookup f := by
  induction h with
  | nil => intro _; rfl
  | cons x _ ih =>
    intro f
    simp only [List.map_cons, List.nodup_cons] at hn
    rcases x with ⟨k, v⟩
    by_cases hk : f = k
    · subst hk
      simp [List.lookup]
    · simp only [List.lookup, beq_eq_false_iff_ne.mpr hk]
      exact ih hn.2 f
  | swap x y l =>
    intro f
    rcases x with ⟨kx, vx⟩
    rcases y with ⟨ky, vy⟩
    simp only [List.map_cons, List.nodup_cons, List.mem_cons] at hn
    have hxy : ky ≠ kx := fun hc => hn.1 (Or.inl hc)
    by_cases hfy : f = ky
    · subst hfy
      simp only [List.lookup, beq_self_eq_true, beq_eq_false_iff_ne.mpr hxy]
    · by_cases hfx : f = kx
      · subst hfx
        simp only [List.lookup, beq_self_eq_true, beq_eq_false_iff_ne.mpr hfy]
      · simp only [List.lookup, beq_eq_false_iff_ne.mpr hfy, beq_eq_false_iff_ne.mpr hfx]
  | trans h₁ _ ih₁ ih₂ =>
    intro f
    have hn₂ := ((h₁.map Prod.fst).nodup_iff).mp hn
    exact (ih₁ hn f).trans (ih₂ hn₂ f)

theorem encodeFieldsOf_congr {l₁ l₂ : List (String × Value)}
    (h : ∀ f, l₁.lookup f = l₂.lookup f) :
    ∀ fs, encodeFieldsOf l₁ fs = encodeFieldsOf l₂ fs
  | [] => rfl
  | f :: fs => by
    simp only [encodeFieldsOf, h f, encodeFieldsOf_congr h fs]

/-! Helper lemmas on generateKey and Filter. -/

theorem writeFields_mkDocument (l : List (String × Value)) :
    ∀ (fs : List String) (st : List Nat), (∀ f ∈ fs, f ∈ l.map Prod.fst) →
      writeFields (mkDocument l) st fs = .ok (st ++ encodeFieldsOf l fs)
  | [], st, _ => by simp [writeFields, encodeFieldsOf]
  | f :: fs, st, h => by
    obtain ⟨v, hv⟩ := lookup_some_of_mem_fst (h f (by simp))
    have htail : ∀ g ∈ fs, g ∈ l.map Prod.fst := fun g hg => h g (by simp [hg])
    have hget : (mkDocument l).getByField f = .ok v := by
      simp only [mkDocument, hv]
    simp only [writeFields, hget, encodeFieldsOf, hv]
    rw [writeFields_mkDocument l fs (st ++ encodeValue v) htail, List.append_assoc]

theorem generateKey_mkDocument (s : documentHashSet) (l : List (String × Value)) :
    generateKey s (mkDocument l) =
      ((s.sum64 (s.hashState ++ sortedValuesEncoding l), none), []) := by
  have hmem : ∀ f ∈ sortFields (l.map Prod.fst), f ∈ l.map Prod.fst := by
    intro f hf
    exact (List.perm_insertionSort _ _).mem_iff.mp hf
  have hfields : (mkDocument l).fieldsResult = .ok (sortFields (l.map Prod.fst)) := rfl
  have hw := writeFields_mkDocument l (sortFields (l.map Prod.fst)) s.hashState hmem
  simp only [generateKey, hfields, hw, sortedValuesEncoding]

theorem generateKey_snd (s : documentHashSet) (d : Document) :
    (generateKey s d).2 = [] := by
  unfold generateKey
  split
  · rfl
  · split <;> rfl

theorem generateKey_set_irrelevant (f : List Nat → Nat) (hs st₁ st₂ : List Nat)
    (d : Document) :
    generateKey ⟨f, hs, st₁⟩ d = generateKey ⟨f, hs, st₂⟩ d := rfl

theorem generateKey_eq_keyOf (s : documentHashSet) (d : Document)
    (h : s.hashState = []) : (generateKey s d).1 = keyOf s.sum64 d := by
  rcases s with ⟨f, hs, st⟩
  subst h
  rfl

theorem generateKey_full_of_keyOf (s : documentHashSet) (d : Document)
    (p : Nat × Option String) (hhs : s.hashState = [])
    (h : keyOf s.sum64 d = p) : generateKey s d = (p, []) := by
  have h1 := generateKey_eq_keyOf s d hhs
  have h2 := generateKey_snd s d
  rcases hge : generateKey s d with ⟨q, hs⟩
  rw [hge] at h1 h2
  rw [show q = p from h1.trans h, show hs = [] from h2]

theorem Filter_eq_of_generateKey_ok (s : documentHashSet) (d : Document) (k : Nat)
    (h : generateKey s d = ((k, none), [])) :
    Filter s d =
      if k ∈ s.set then ((false, none), { s with hashState := [] })
      else ((true, none), { s with hashState := [], set := s.set ++ [k] }) := by
  unfold Filter
  rw [h]

theorem Filter_eq_of_generateKey_error (s : documentHashSet) (d : Document)
    (k : Nat) (e : String) (h : generateKey s d = ((k, some e), [])) :
    Filter s d = ((false, some e), { s with hashState := [] }) := by
  unfold Filter
  rw [h]

theorem Filter_state (s : documentHashSet) (d : Document) :
    (Filter s d).2.hashState = [] ∧ (Filter s d).2.sum64 = s.sum64 := by
  have h2 := generateKey_snd s d
  unfold Filter
  rcases hge : generateKey s d with ⟨⟨k, err⟩, hs⟩
  rw [hge] at h2
  have hhs : hs = [] := h2
  subst hhs
  cases err with
  | some e => exact ⟨rfl, rfl⟩
  | none =>
    by_cases hk : k ∈ s.set
    · simp [hk]
    · simp [hk]

theorem filterStream_cons_error (s : documentHashSet) (d : Document)
    (ds : List Document) (s' : documentHashSet) (b : Bool) (e : String)
    (h : Filter s d = ((b, some e), s')) :
    filterStream s (d :: ds) = ([], s') := by
  conv_lhs => unfold filterStream
  rw [h]
  cases b <;> rfl

theorem filterStream_cons_true (s : documentHashSet) (d : Document)
    (ds : List Document) (s' : documentHashSet)
    (h : Filter s d = ((true, none), s')) :
    filterStream s (d :: ds) = (d :: (filterStream s' ds).1, (filterStream s' ds).2) := by
  conv_lhs => unfold filterStream
  rw [h]

theorem filterStream_cons_false (s : documentHashSet) (d : Document)
    (ds : List Document) (s' : documentHashSet)
    (h : Filter s d = ((false, none), s')) :
    filterStream s (d :: ds) = filterStream s' ds := by
  conv_lhs => unfold filterStream
  rw [h]

theorem distinctSpec_cons_ok (sum64 : List Nat → Nat) (seen : List Nat)
    (d : Document) (ds : List Document) (k : Nat)
    (hk : keyOf sum64 d = (k, none)) :
    distinctSpec sum64 seen (d :: ds) =
      if k ∈ seen then distinctSpec sum64 seen ds
      else d :: distinctSpec sum64 (k :: seen) ds := by
  conv_lhs => unfold distinctSpec
  rw [hk]

theorem filterStream_state (ds : List Document) :
    ∀ s : documentHashSet, s.hashState = [] →
      (filterStream s ds).2.hashState = [] ∧ (filterStream s ds).2.sum64 = s.sum64 := by
  induction ds with
  | nil => exact fun s h => ⟨h, rfl⟩
  | cons d ds ih =>
    intro s _
    have hf := Filter_state s d
    rcases hfe : Filter s d with ⟨⟨ok, err⟩, s'⟩
    rw [hfe] at hf
    have hf1 : s'.hashState = [] := hf.1
    have hf2 : s'.sum64 = s.sum64 := hf.2
    cases err with
    | some e =>
      rw [filterStream_cons_error s d ds s' ok e hfe]
      exact ⟨hf1, hf2⟩
    | none =>
      cases ok
      · rw [filterStream_cons_false s d ds s' hfe]
        have hr := ih s' hf1
        exact ⟨hr.1, hr.2.trans hf2⟩
      · rw [filterStream_cons_true s d ds s' hfe]
        have hr := ih s' hf1
        exact ⟨hr.1, hr.2.trans hf2⟩

theorem filterStream_eq_distinctSpec :
    ∀ (ds : List Document) (s : documentHashSet) (seen : List Nat),
      s.hashState = [] →
      (∀ k, k ∈ s.set ↔ k ∈ seen) →
      (∀ d ∈ ds, (keyOf s.sum64 d).2 = none) →
      (filterStream s ds).1 = distinctSpec s.sum64 seen ds := by
  intro ds
  induction ds with
  | nil => intro s seen _ _ _; rfl
  | cons d ds ih =>
    intro s seen hhs hset herr
    obtain ⟨k, hk⟩ : ∃ k, keyOf s.sum64 d = (k, none) := by
      have herrd := herr d (by simp)
      rcases hkk : keyOf s.sum64 d with ⟨k, err⟩
      rw [hkk] at herrd
      have : err = none := herrd
      subst this
      exact ⟨k, rfl⟩
    have hg : generateKey s d = ((k, none), []) :=
      generateKey_full_of_keyOf s d (k, none) hhs hk
    have htail : ∀ d' ∈ ds, (keyOf s.sum64 d').2 = none :=
      fun d' hd' => herr d' (by simp [hd'])
    rw [distinctSpec_cons_ok s.sum64 seen d ds k hk]
    by_cases hmem : k ∈ s.set
    · have hF : Filter s d = ((false, none), { s with hashState := [] }) := by
        rw [Filter_eq_of_generateKey_ok s d k hg, if_pos hmem]
      rw [filterStream_cons_false s d ds _ hF, if_pos ((hset k).mp hmem)]
      exact ih { s with hashState := [] } seen rfl hset htail
    · have hF : Filter s d =
          ((true, none), { s with hashState := [], set := s.set ++ [k] }) := by
        rw [Filter_eq_of_generateKey_ok s d k hg, if_neg hmem]
      rw [filterStream_cons_true s d ds _ hF, if_neg (fun hc => hmem ((hset k).mpr hc))]
      have hset' : ∀ k', k' ∈ s.set ++ [k] ↔ k' ∈ k :: seen := by
        intro k'
        simp [hset k', or_comm]
      have hr := ih { s with hashState := [], set := s.set ++ [k] } (k :: seen) rfl hset' htail
      show d :: (filterStream { s with hashState := [], set := s.set ++ [k] } ds).1 =
        d :: distinctSpec s.sum64 (k :: seen) ds
      rw [hr]

/-! The claims. -/

/-- Claim C1: a stream of documents fed through a fresh distinct hash-set
filter (all keys computing without error) is reduced by Filter to exactly
those documents whose 64-bit surrogate key was not produced by any earlier
document of the stream, in first-seen input order; distinctSpec is the
spec-side first-seen dedup, so the same logical document inserted twice
yields one survivor and two documents with distinct keys yield two. -/
theorem C1_filter_first_seen_distinct (sum64 : List Nat → Nat) (ds : List Document)
    (h : ∀ d ∈ ds, (keyOf sum64 d).2 = none) :
    (filterStream (newDocumentHashSet (some sum64)) ds).1 = distinctSpec sum64 [] ds :=
  filterStream_eq_distinctSpec ds (newDocumentHashSet (some sum64)) [] rfl
    (fun k => by simp [newDocumentHashSet]) h

/-- Witness for C1: the stream wdocA, wdocA, wdocB under the default hash
satisfies the no-error hypothesis, and the survivors are exactly wdocA
then wdocB: the duplicate insert of wdocA yields one survivor and the
distinct-key wdocB still passes. -/
theorem C1_filter_first_seen_distinct_witness :
    (∀ d ∈ [wdocA, wdocA, wdocB], (keyOf maphashSum64 d).2 = none) ∧
    (filterStream (newDocumentHashSet (some maphashSum64)) [wdocA, wdocA, wdocB]).1 =
      [wdocA, wdocB] :=
  ⟨by decide,
   (C1_filter_first_seen_distinct maphashSum64 [wdocA, wdocA, wdocB] (by decide)).trans
     (by rfl)⟩

/-- Claim C2 is false on the code: generateKey feeds only the field VALUE
encodings (in sorted field order) to the hash, never the field names, so
the documents with field name a and field name b and the same value 1
produce the identical hash input byte sequence, hence the identical key:
this is equality of the hash input itself, not a hash collision. -/
theorem C2_counterexample :
    sortedValuesEncoding [("a", Value.integer 1)] =
      sortedValuesEncoding [("b", Value.integer 1)] ∧
    keyOf maphashSum64 (mkDocument [("a", Value.integer 1)]) =
      keyOf maphashSum64 (mkDocument [("b", Value.integer 1)]) ∧
    ("a" : String) ≠ "b" :=
  ⟨by decide, by decide, by decide⟩

/-- Claim C2 (amended): the surrogate key is the hash of the canonical
field-sorted sequence of the field VALUE encodings (appended to whatever
is in the accumulator); field names determine only the order of encoding
and contribute no bytes, so two documents with the same values under
different field names receive the same key. -/
theorem C2_key_over_sorted_values (s : documentHashSet) (l : List (String × Value)) :
    generateKey s (mkDocument l) =
      ((s.sum64 (s.hashState ++ sortedValuesEncoding l), none), []) :=
  generateKey_mkDocument s l

/-- Claim C3: for two structurally different documents whose surrogate
keys coincide (a hash collision), after the first has passed a fresh
distinct filter, Filter on the second returns false: it is incorrectly
treated as a duplicate. -/
theorem C3_collision_false_duplicate (sum64 : List Nat → Nat)
    (l₁ l₂ : List (String × Value)) (k : Nat) (_hne : l₁ ≠ l₂)
    (h₁ : keyOf sum64 (mkDocument l₁) = (k, none))
    (h₂ : keyOf sum64 (mkDocument l₂) = (k, none)) :
    (Filter (newDocumentHashSet (some sum64)) (mkDocument l₁)).1 = (true, none) ∧
    (Filter ((Filter (newDocumentHashSet (some sum64)) (mkDocument l₁)).2)
        (mkDocument l₂)).1 = (false, none) := by
  have hg₁ : generateKey (newDocumentHashSet (some sum64)) (mkDocument l₁) =
      ((k, none), []) :=
    generateKey_full_of_keyOf _ _ (k, none) rfl h₁
  have hF₁ : Filter (newDocumentHashSet (some sum64)) (mkDocument l₁) =
      ((true, none), { sum64 := sum64, hashState := [], set := [k] }) := by
    rw [Filter_eq_of_generateKey_ok _ _ k hg₁, if_neg (by simp [newDocumentHashSet])]
    rfl
  have hg₂ : generateKey { sum64 := sum64, hashState := [], set := [k] }
      (mkDocument l₂) = ((k, none), []) :=
    generateKey_full_of_keyOf _ _ (k, none) rfl h₂
  constructor
  · rw [hF₁]
  · rw [hF₁]
    rw [Filter_eq_of_generateKey_ok _ _ k hg₂, if_pos (by simp)]

/-- Witness for C3: under the constant hash, the structurally different
documents with value 1 and value 2 under the same field name collide: the
first passes, the second is filtered out. -/
theorem C3_collision_false_duplicate_witness :
    (Filter (newDocumentHashSet (some constZeroSum))
        (mkDocument [("a", Value.integer 1)])).1 = (true, none) ∧
    (Filter ((Filter (newDocumentHashSet (some constZeroSum))
          (mkDocument [("a", Value.integer 1)])).2)
        (mkDocument [("a", Value.integer 2)])).1 = (false, none) :=
  C3_collision_false_duplicate constZeroSum
    [("a", Value.integer 1)] [("a", Value.integer 2)] 0
    (by decide) (by decide) (by decide)

/-- Claim C4: two documents with identical field-to-value pairs but
different insertion order (a permutation of a duplicate-free field list)
receive the same surrogate key, because hashing iterates the fields in
canonical sorted order. -/
theorem C4_insertion_order_irrelevant (s : documentHashSet)
    (l₁ l₂ : List (String × Value)) (hperm : l₁.Perm l₂)
    (hnodup : (l₁.map Prod.fst).Nodup) :
    generateKey s (mkDocument l₁) = generateKey s (mkDocument l₂) := by
  rw [generateKey_mkDocument, generateKey_mkDocument]
  have henc : sortedValuesEncoding l₁ = sortedValuesEncoding l₂ := by
    unfold sortedValuesEncoding
    rw [sortFields_eq_of_perm (hperm.map Prod.fst)]
    exact encodeFieldsOf_congr (lookup_eq_of_perm hperm hnodup) _
  rw [henc]

/-- Witness for C4: the two-field document written in the two insertion
orders receives the same key under the default hash. -/
theorem C4_insertion_order_irrelevant_witness :
    generateKey (newDocumentHashSet none)
        (mkDocument [("b", Value.integer 2), ("a", Value.integer 1)]) =
      generateKey (newDocumentHashSet none)
        (mkDocument [("a", Value.integer 1), ("b", Value.integer 2)]) :=
  C4_insertion_order_irrelevant (newDocumentHashSet none)
    [("b", Value.integer 2), ("a", Value.integer 1)]
    [("a", Value.integer 1), ("b", Value.integer 2)]
    (by decide) (by decide)

/-- Claim C5: the hashing accumulator is reset after every generateKey
call, on the success and on the error exit paths alike (first conjunct,
over arbitrary states and documents), so the key computed for a document
after any sequence of filtered documents equals the key computed after any
other sequence: no accumulator state leaks between documents. -/
theorem C5_accumulator_reset_no_leak (sum64 : List Nat → Nat) :
    (∀ (s : documentHashSet) (d : Document), (generateKey s d).2 = []) ∧
    (∀ (ds₁ ds₂ : List Document) (d : Document),
      (generateKey (filterStream (newDocumentHashSet (some sum64)) ds₁).2 d).1 =
        (generateKey (filterStream (newDocumentHashSet (some sum64)) ds₂).2 d).1) := by
  refine ⟨generateKey_snd, ?_⟩
  intro ds₁ ds₂ d
  have h₁ := filterStream_state ds₁ (newDocumentHashSet (some sum64)) rfl
  have h₂ := filterStream_state ds₂ (newDocumentHashSet (some sum64)) rfl
  rw [generateKey_eq_keyOf _ _ h₁.1, generateKey_eq_keyOf _ _ h₂.1, h₁.2, h₂.2]

/-- Claim C6: when generateKey fails, Filter returns false together with
that same error, and the recorded key set is unchanged: the error is never
swallowed and no key is recorded for the failed document. -/
theorem C6_error_propagated_set_unchanged (s : documentHashSet) (d : Document)
    (e : String) (h : (generateKey s d).1.2 = some e) :
    Filter s d = ((false, some e), { sum64 := s.sum64, hashState := [], set := s.set }) := by
  have h2 := generateKey_snd s d
  rcases hge : generateKey s d with ⟨⟨k, err⟩, hs⟩
  rw [hge] at h h2
  have herr : err = some e := h
  have hhs : hs = [] := h2
  subst herr
  subst hhs
  exact Filter_eq_of_generateKey_error s d k e hge

/-- Witness for C6: the document whose field enumeration fails with boom
satisfies the hypothesis; Filter surfaces exactly that error with false
and the empty set is unchanged. -/
theorem C6_error_propagated_set_unchanged_witness :
    ((generateKey (newDocumentHashSet none) errDoc).1.2 = some "boom") ∧
    Filter (newDocumentHashSet none) errDoc =
      ((false, some "boom"), { sum64 := maphashSum64, hashState := [], set := [] }) :=
  ⟨rfl, C6_error_propagated_set_unchanged (newDocumentHashSet none) errDoc "boom" rfl⟩

/-- Claim C7: newDocumentHashSet called with no hashing implementation
substitutes the package-default maphash rather than failing or keeping no
hash, the returned set starts with an empty key set, and the first Filter
call on any document whose key computes returns true. -/
theorem C7_default_hash_first_filter_true :
    newDocumentHashSet none = { sum64 := maphashSum64, hashState := [], set := [] } ∧
    (newDocumentHashSet none).set = [] ∧
    (∀ (d : Document) (k : Nat),
      (generateKey (newDocumentHashSet none) d).1 = (k, none) →
      (Filter (newDocumentHashSet none) d).1 = (true, none)) := by
  refine ⟨rfl, rfl, ?_⟩
  intro d k hk
  have hg : generateKey (newDocumentHashSet none) d = ((k, none), []) := by
    have h2 := generateKey_snd (newDocumentHashSet none) d
    rcases hge : generateKey (newDocumentHashSet none) d with ⟨p, hs⟩
    rw [hge] at hk h2
    rw [show p = (k, none) from hk, show hs = [] from h2]
  rw [Filter_eq_of_generateKey_ok _ d k hg, if_neg (by simp [newDocumentHashSet])]

/-- Witness for C7: the first Filter call on the concrete one-field
document against a fresh default-hash set returns true. -/
theorem C7_default_hash_first_filter_true_witness :
    (Filter (newDocumentHashSet none) (mkDocument [("a", Value.integer 1)])).1 =
      (true, none) :=
  C7_default_hash_first_filter_true.2.2 (mkDocument [("a", Value.integer 1)])
    (generateKey (newDocumentHashSet none) (mkDocument [("a", Value.integer 1)])).1.1
    (by rfl)

/-- Claim C8: scanning the user table, filtering on Name equal to bar and
projecting all fields yields exactly the one document with ID 1, Name bar,
Age 100, and the stream terminates without error. -/
theorem C8_scan_filter_project :
    exampleQuery =
      .ok [[("ID", Value.integer 1), ("Name", Value.text "bar"),
            ("Age", Value.integer 100)]] := by
  rfl

/-- Claim C9: the CLI root command selects the engine deterministically:
memory with no flags and no path; bolt when the bolt flag is set or a path
is given; badger when the badger flag is set, overriding the path-implied
bolt; exit code 2 when both flags are set, and when either flag is set
without a path. -/
theorem C9_engine_selection (p : String) :
    (rootAction false false "" = .run "memory" "") ∧
    (rootAction true true p =
      .exitErr "cannot use bolt and badger options at the same time" 2) ∧
    (rootAction true false "" =
      .exitErr "db path required when using bolt or badger" 2) ∧
    (rootAction false true "" =
      .exitErr "db path required when using bolt or badger" 2) ∧
    (p ≠ "" → rootAction true false p = .run "bolt" p) ∧
    (p ≠ "" → rootAction false false p = .run "bolt" p) ∧
    (p ≠ "" → rootAction false true p = .run "badger" p) := by
  refine ⟨rfl, rfl, rfl, rfl, ?_, ?_, ?_⟩ <;>
    intro h <;> simp [rootAction, beq_eq_false_iff_ne.mpr h, h]

/-- Witness for C9: with the badger flag and the path my.db, the badger
engine is selected. -/
theorem C9_engine_selection_witness :
    rootAction false true "my.db" = .run "badger" "my.db" :=
  (C9_engine_selection "my.db").2.2.2.2.2.2 (by decide)

/-- Claim C10: the restore command errs, before opening any file, unless
the engine is bolt or badger, exactly two positional arguments are given,
the first ends in .sql and the second ends in .db; the checks run in that
order and the first failing one determines the error. -/
theorem C10_restore_checks (engine f db : String) (args : List String) :
    ((engine == "bolt" || engine == "badger") = false →
      restoreAction engine args = .errEngine) ∧
    ((engine == "bolt" || engine == "badger") = true → args.length ≠ 2 →
      restoreAction engine args = .errBadArgs) ∧
    ((engine == "bolt" || engine == "badger") = true →
      strHasSuffix f ".sql" = false →
      restoreAction engine [f, db] = .errNotSql) ∧
    ((engine == "bolt" || engine == "badger") = true →
      strHasSuffix f ".sql" = true → strHasSuffix db ".db" = false →
      restoreAction engine [f, db] = .errNotDb) ∧
    ((engine == "bolt" || engine == "badger") = true →
      strHasSuffix f ".sql" = true → strHasSuffix db ".db" = true →
      restoreAction engine [f, db] = .proceed f db) := by
  refine ⟨?_, ?_, ?_, ?_, ?_⟩
  · intro h
    simp [restoreAction, h]
  · intro h hlen
    simp [restoreAction, h, hlen]
  · intro h hsql
    simp [restoreAction, h, hsql]
  · intro h hsql hdb
    simp [restoreAction, h, hsql, hdb]
  · intro h hsql hdb
    simp [restoreAction, h, hsql, hdb]

/-- Witness for C10: with engine bolt and arguments dump.sql and my.db,
all checks pass and the command proceeds to open the dump file. -/
theorem C10_restore_checks_witness :
    restoreAction "bolt" ["dump.sql", "my.db"] = .proceed "dump.sql" "my.db" :=
  (C10_restore_checks "bolt" "dump.sql" "my.db" ["dump.sql", "my.db"]).2.2.2.2
    (by decide) (by decide) (by decide)

end Genji
